import Mathlib

/- Shallow embedding of the pnp-toolkit pixel-reconstruction core
(src/transform/refill.ts, src/transform/pipeline.ts and the shared pixel
utilities). Raster buffers are modelled as a flat list of byte values
together with a width and a height, mirroring the layout used by the code
(4 bytes per pixel, base index 4 * (x + y * width)). Reads through
getPixel return Option Nat per channel: a read past the end of the data
yields none, matching the undefined value produced by a typed-array read
in the source language. Writes through setPixel are silently dropped when
the index is out of range, matching typed-array stores. Interpolated
colours in the corner refill are real numbers, and angles are real
numbers with atan2 modelled by the complex argument. -/

namespace PnP

/-- A raster buffer: width, height and flat RGBA byte data, as in the
ImageData values the code manipulates. -/
structure ImageData where
  width : Nat
  height : Nat
  data : List Nat
deriving DecidableEq

/-- Result of a 4-channel read; each channel is none when the read index
falls outside the data array, as a typed-array read yields undefined. -/
structure Pix where
  r : Option Nat
  g : Option Nat
  b : Option Nat
  a : Option Nat
deriving DecidableEq

/-- Concrete byte quadruple (r, g, b, a). -/
abbrev PixB := Nat × Nat × Nat × Nat

/-- Base byte index of pixel (x, y) in a buffer of the given width,
as computed by the PIXEL_SIZE arithmetic of the code. -/
def pixIdx (w x y : Nat) : Nat := 4 * (x + y * w)

/-- Embedding of getPixel from the pixel utilities: four reads at the
base index computed from the supplied width. -/
def getPixel (pixels : List Nat) (w x y : Nat) : Pix :=
  Pix.mk pixels[pixIdx w x y]? pixels[pixIdx w x y + 1]?
    pixels[pixIdx w x y + 2]? pixels[pixIdx w x y + 3]?

/-- Value actually stored when a possibly-undefined channel is written
back: undefined coerces to 0 in a clamped byte store. -/
def byteVal (v : Option Nat) : Nat := v.getD 0

/-- The four channels of a pixel read, coerced to concrete bytes. -/
def pxData (d : List Nat) (w x y : Nat) : PixB :=
  (byteVal (getPixel d w x y).r, byteVal (getPixel d w x y).g,
   byteVal (getPixel d w x y).b, byteVal (getPixel d w x y).a)

/-- Pixel accessor of a buffer using its own width as stride. -/
def px (img : ImageData) (x y : Nat) : PixB := pxData img.data img.width x y

/-- Lift a concrete byte quadruple to the result of an in-range read. -/
def somePix (c : PixB) : Pix :=
  Pix.mk (some c.1) (some c.2.1) (some c.2.2.1) (some c.2.2.2)

/-- Component k of a byte quadruple (k = 0, 1, 2, 3). -/
def pixComp (c : PixB) (k : Nat) : Nat :=
  if k = 0 then c.1 else if k = 1 then c.2.1 else if k = 2 then c.2.2.1 else c.2.2.2

/-- Embedding of setPixel on the flat data: four stores at the base index
computed from the supplied width; out-of-range stores are dropped. -/
def setPixelData (d : List Nat) (w x y r g b a : Nat) : List Nat :=
  ((((d.set (pixIdx w x y) r).set (pixIdx w x y + 1) g).set
      (pixIdx w x y + 2) b).set (pixIdx w x y + 3) a)

/-- Embedding of setPixel from the pixel utilities: writes through the
width stored in the image, as the code does. -/
def setPixel (img : ImageData) (x y r g b a : Nat) : ImageData :=
  ImageData.mk img.width img.height (setPixelData img.data img.width x y r g b a)

/-- Embedding of hasColor from the pixel utilities: an exact 4-channel
comparison against a concrete colour (an undefined channel never
matches). -/
def hasColor (pixels : List Nat) (w x y : Nat) (c : PixB) : Bool :=
  decide (getPixel pixels w x y = somePix c)

/- ----------------------------------------------------------------
Directional edge extension (extendSides, src/transform/refill.ts).
---------------------------------------------------------------- -/

/-- Iteration order of the extendSides loops: x outer, y inner. -/
def scanCoords (w h : Nat) : List (Nat × Nat) :=
  (List.range w).flatMap (fun x => (List.range h).map (fun y => (x, y)))

/-- The coordinates overwritten by one directive, decoded from the
control pixel channels with the priority of the code: red 255 gives left,
else green 255 gives up, else blue 255 gives right, else down. -/
def dirCells (W H x y : Nat) (c : Pix) : List (Nat × Nat) :=
  if c.r = some 255 then (List.range x).map (fun cx => (cx, y))
  else if c.g = some 255 then (List.range y).map (fun cy => (x, cy))
  else if c.b = some 255 then
    (List.range (W - (x + 1))).map (fun k => (x + 1 + k, y))
  else (List.range (H - (y + 1))).map (fun k => (x, y + 1 + k))

/-- Write the given bytes to every coordinate of a list. -/
def writeCells (img : ImageData) (L : List (Nat × Nat)) (r g b a : Nat) : ImageData :=
  L.foldl (fun acc q => setPixel acc q.1 q.2 r g b a) img

/-- One iteration of the extendSides double loop at anchor (x, y). Note
that the code reads the control data with the SOURCE width as stride
(getPixel(control.data, width, x, y)), which this embedding reproduces
exactly; W and H are the source dimensions captured at entry. -/
def extendStep (control : ImageData) (W H : Nat) (img : ImageData)
    (xy : Nat × Nat) : ImageData :=
  if (getPixel control.data W xy.1 xy.2).a = some 0 then img
  else
    writeCells img (dirCells W H xy.1 xy.2 (getPixel control.data W xy.1 xy.2))
      (pxData img.data W xy.1 xy.2).1 (pxData img.data W xy.1 xy.2).2.1
      (pxData img.data W xy.1 xy.2).2.2.1 (pxData img.data W xy.1 xy.2).2.2.2

/-- Embedding of extendSides: fold the per-anchor step over every
coordinate within the control image bounds, in loop order. -/
def extendSides (source control : ImageData) : ImageData :=
  (scanCoords control.width control.height).foldl
    (extendStep control source.width source.height) source

/-- A control read that is not skipped by the alpha test of the code. -/
def activeAnchor (control : ImageData) (W : Nat) (xy : Nat × Nat) : Prop :=
  (getPixel control.data W xy.1 xy.2).a ≠ some 0

instance (control : ImageData) (W : Nat) (xy : Nat × Nat) :
    Decidable (activeAnchor control W xy) := by
  unfold activeAnchor; infer_instance

/-- The overwrite range of the directive decoded at an anchor. -/
def anchorCells (control : ImageData) (W H : Nat) (xy : Nat × Nat) : List (Nat × Nat) :=
  dirCells W H xy.1 xy.2 (getPixel control.data W xy.1 xy.2)

/- ----------------------------------------------------------------
Mirrored bleed generation (addBleed, src/transform/pipeline.ts).
The 2D canvas drawing used by the code (translate, scale by plus or
minus one, drawImage) is modelled as exact pixel placement: with scale 1
the source pixel i lands at device coordinate tx + i, with scale -1 at
tx - 1 - i, and later paints overwrite earlier ones. The nine painted
blocks are pairwise disjoint, so compositing equals overwriting.
---------------------------------------------------------------- -/

/-- Paint a transformed copy of an image onto a canvas (a total pixel
function over device coordinates): scale sx sy (1 or -1 in this code),
then translate by (tx, ty). Device pixels outside the painted block keep
the previous canvas content. -/
def paintImage (c : ℤ → ℤ → PixB) (img : ImageData) (sx sy tx ty : ℤ) :
    ℤ → ℤ → PixB := fun u v =>
  let i : ℤ := if sx = 1 then u - tx else tx - 1 - u
  let j : ℤ := if sy = 1 then v - ty else ty - 1 - v
  if 0 ≤ i ∧ i < (img.width : ℤ) ∧ 0 ≤ j ∧ j < (img.height : ℤ) then
    px img i.toNat j.toNat
  else c u v

/-- The eight reflection descriptors of the code, in paint order:
left, right, top, bottom, then the four corner mirrors. Each entry is
(scaleX, scaleY, shiftX, shiftY). -/
def COPIES : List (ℤ × ℤ × ℤ × ℤ) :=
  [(-1, 1, 0, 0), (-1, 1, 2, 0), (1, -1, 0, 0), (1, -1, 0, 2),
   (-1, -1, 0, 0), (-1, -1, 2, 0), (-1, -1, 0, 2), (-1, -1, 2, 2)]

/-- The canvas contents produced by addBleed: the source painted at
(padding, padding), then the eight mirrored copies in order, each
translated by (shiftX * width + padding, shiftY * height + padding). -/
def bleedFun (source : ImageData) (padding : Nat) : ℤ → ℤ → PixB :=
  COPIES.foldl
    (fun c d =>
      paintImage c source d.1 d.2.1
        (d.2.2.1 * (source.width : ℤ) + (padding : ℤ))
        (d.2.2.2 * (source.height : ℤ) + (padding : ℤ)))
    (paintImage (fun _ _ => (0, 0, 0, 0)) source 1 1 (padding : ℤ) (padding : ℤ))

/-- Read a W-by-H block of a canvas back into flat row-major byte data,
as getImageData does. -/
def buildData (W H : Nat) (f : ℤ → ℤ → PixB) : List Nat :=
  (List.range (4 * W * H)).map
    (fun n => pixComp (f (((n / 4) % W : Nat) : ℤ) (((n / 4) / W : Nat) : ℤ)) (n % 4))

/-- Embedding of addBleed: a new buffer of padded dimensions holding the
painted canvas. -/
def addBleed (source : ImageData) (padding : Nat) : ImageData :=
  ImageData.mk (source.width + 2 * padding) (source.height + 2 * padding)
    (buildData (source.width + 2 * padding) (source.height + 2 * padding)
      (bleedFun source padding))

/- ----------------------------------------------------------------
Radial corner extension (refillCorner, src/transform/refill.ts).
---------------------------------------------------------------- -/

/-- Marker colour for the quadrant center: exactly (0, 255, 0, 255). -/
def CENTER_COLOR : PixB := (0, 255, 0, 255)

/-- Marker colour for edge samples: exactly (255, 0, 255, 255). -/
def EDGE_COLOR : PixB := (255, 0, 255, 255)

/-- Marker colour for target pixels: exactly (0, 0, 0, 255). -/
def TARGET_COLOR : PixB := (0, 0, 0, 255)

/-- Row-major iteration order of the refillCorner loops: y outer, x inner. -/
def rowMajorCoords (w h : Nat) : List (Nat × Nat) :=
  (List.range h).flatMap (fun y => (List.range w).map (fun x => (x, y)))

/-- Angular sample: adjusted angle plus the source colour at the edge
pixel, as collected by refillCorner. -/
structure Sample where
  angle : ℝ
  color : PixB

/-- A real colour quadruple, the value produced by the interpolation. -/
abbrev RealPix := ℝ × ℝ × ℝ × ℝ

/-- Cast of a byte quadruple to a real colour quadruple. -/
noncomputable def pixCast (c : PixB) : RealPix :=
  ((c.1 : ℝ), (c.2.1 : ℝ), (c.2.2.1 : ℝ), (c.2.2.2 : ℝ))

/-- Failure modes of a quadrant pass: the fatal missing-center abort
(process exit) and the runtime dereference of an undefined sample. -/
inductive RefillErr where
  | noCenter : RefillErr
  | undefinedSample : RefillErr
deriving DecidableEq

/-- Model of atan2(y, x) as the argument of the complex number x + y i,
which agrees with the library function on every input arising here. -/
noncomputable def atan2 (y x : ℝ) : ℝ := Complex.arg (Complex.mk x y)

/-- Embedding of adjustedAngle: keep non-positive raw angles on the
bottom half and subtract two pi from strictly positive ones; keep
non-negative raw angles on the top half and add two pi to strictly
negative ones. -/
noncomputable def adjustedAngle (bottomHalf : Bool) (rawAngle : ℝ) : ℝ :=
  if bottomHalf then (if rawAngle ≤ 0 then rawAngle else rawAngle - 2 * Real.pi)
  else (if 0 ≤ rawAngle then rawAngle else rawAngle + 2 * Real.pi)

/-- The adjusted angle of pixel (x, y) seen from the center, computed as
in refillCorner: adjustedAngle applied to atan2(centerY - y, x - centerX). -/
noncomputable def pixelAngle (bottomHalf : Bool) (cx cy x y : Nat) : ℝ :=
  adjustedAngle bottomHalf (atan2 ((cy : ℝ) - (y : ℝ)) ((x : ℝ) - (cx : ℝ)))

/-- Center detection of refillCorner: scan every coordinate row-major and
keep the last one whose control pixel matches the center colour. -/
def findCenter (ctrl : ImageData) : Option (Nat × Nat) :=
  (rowMajorCoords ctrl.width ctrl.height).foldl
    (fun acc xy =>
      if hasColor ctrl.data ctrl.width xy.1 xy.2 CENTER_COLOR then some xy else acc)
    none

/-- All coordinates whose control pixel matches the center colour, in
row-major scan order. -/
def centerCoords (ctrl : ImageData) : List (Nat × Nat) :=
  (rowMajorCoords ctrl.width ctrl.height).filter
    (fun xy => hasColor ctrl.data ctrl.width xy.1 xy.2 CENTER_COLOR)

/-- All coordinates whose control pixel matches the edge colour, in
row-major scan order. -/
def edgeCoords (ctrl : ImageData) : List (Nat × Nat) :=
  (rowMajorCoords ctrl.width ctrl.height).filter
    (fun xy => hasColor ctrl.data ctrl.width xy.1 xy.2 EDGE_COLOR)

/-- All coordinates whose control pixel matches the target colour, in
row-major scan order. -/
def targetCoords (ctrl : ImageData) : List (Nat × Nat) :=
  (rowMajorCoords ctrl.width ctrl.height).filter
    (fun xy => hasColor ctrl.data ctrl.width xy.1 xy.2 TARGET_COLOR)

/-- Sample collection of refillCorner: one sample per edge-coloured
control pixel, carrying the adjusted angle and the source colour read
with the control width as stride, as the code does. -/
noncomputable def collectSamples (src ctrl : ImageData) (bottomHalf : Bool)
    (cx cy : Nat) : List Sample :=
  (edgeCoords ctrl).map
    (fun xy =>
      Sample.mk (pixelAngle bottomHalf cx cy xy.1 xy.2)
        (pxData src.data ctrl.width xy.1 xy.2))

/-- Ascending stable sort of the samples by angle, as sortBy does. -/
noncomputable def sortSamples (l : List Sample) : List Sample :=
  l.mergeSort (fun s1 s2 => decide (s1.angle ≤ s2.angle))

/-- Index of the first element satisfying a predicate. -/
def findFirstIdxB (p : α → Bool) : List α → Option Nat
  | [] => none
  | x :: l => if p x then some 0 else (findFirstIdxB p l).map (· + 1)

/-- Index of the last element satisfying a predicate. -/
def findLastIdxB (p : α → Bool) : List α → Option Nat
  | [] => none
  | x :: l =>
    match findLastIdxB p l with
    | some i => some (i + 1)
    | none => if p x then some 0 else none

/-- Index selected for the bracketing sample below the target angle: the
last sample with angle at most the target, with the first sample overall
as fallback (none models the undefined fallback on an empty list). -/
noncomputable def bracketBeforeIdx (samples : List Sample) (t : ℝ) : Option Nat :=
  match findLastIdxB (fun s => decide (s.angle ≤ t)) samples with
  | some i => some i
  | none => if samples.isEmpty then none else some 0

/-- Index selected for the bracketing sample above the target angle: the
first sample with angle at least the target, with the last sample overall
as fallback (none models the undefined fallback on an empty list). -/
noncomputable def bracketAfterIdx (samples : List Sample) (t : ℝ) : Option Nat :=
  match findFirstIdxB (fun s => decide (t ≤ s.angle)) samples with
  | some j => some j
  | none => if samples.isEmpty then none else some (samples.length - 1)

/-- Embedding of the arithmetic of lerpSamples for two distinct entries:
channel-wise linear interpolation weighted by angular distance. -/
noncomputable def lerpPix (before after : Sample) (angle : ℝ) : RealPix :=
  (((after.angle - angle) / (after.angle - before.angle)) * (before.color.1 : ℝ) +
     ((angle - before.angle) / (after.angle - before.angle)) * (after.color.1 : ℝ),
   ((after.angle - angle) / (after.angle - before.angle)) * (before.color.2.1 : ℝ) +
     ((angle - before.angle) / (after.angle - before.angle)) * (after.color.2.1 : ℝ),
   ((after.angle - angle) / (after.angle - before.angle)) * (before.color.2.2.1 : ℝ) +
     ((angle - before.angle) / (after.angle - before.angle)) * (after.color.2.2.1 : ℝ),
   ((after.angle - angle) / (after.angle - before.angle)) * (before.color.2.2.2 : ℝ) +
     ((angle - before.angle) / (after.angle - before.angle)) * (after.color.2.2.2 : ℝ))

/-- Colour assigned to a target pixel with the given adjusted angle:
select the two bracketing samples by index; identical references (equal
indices, including the both-undefined case on an empty sample list) take
the sample colour directly, as lerpSamples does on reference equality.
Dereferencing an undefined sample is the runtime error. -/
noncomputable def targetColor (samples : List Sample) (t : ℝ) :
    Except RefillErr RealPix :=
  match bracketBeforeIdx samples t, bracketAfterIdx samples t with
  | some i, some j =>
    match samples[i]?, samples[j]? with
    | some sb, some sa => .ok (if i = j then pixCast sb.color else lerpPix sb sa t)
    | _, _ => .error .undefinedSample
  | _, _ => .error .undefinedSample

/-- Target-fill loop of refillCorner: walk the coordinates row-major and
record one write per target-coloured control pixel; the first failing
target aborts with its runtime error. -/
noncomputable def fillGo (ctrl : ImageData) (bottomHalf : Bool) (cx cy : Nat)
    (samples : List Sample) (acc : List ((Nat × Nat) × RealPix)) :
    List (Nat × Nat) → Except RefillErr (List ((Nat × Nat) × RealPix))
  | [] => .ok acc
  | xy :: rest =>
    if hasColor ctrl.data ctrl.width xy.1 xy.2 TARGET_COLOR then
      match targetColor samples (pixelAngle bottomHalf cx cy xy.1 xy.2) with
      | .ok col => fillGo ctrl bottomHalf cx cy samples (acc ++ [(xy, col)]) rest
      | .error e => .error e
    else fillGo ctrl bottomHalf cx cy samples acc rest

/-- All target writes of a quadrant pass, given the sorted samples. -/
noncomputable def fillTargets (ctrl : ImageData) (bottomHalf : Bool) (cx cy : Nat)
    (samples : List Sample) : Except RefillErr (List ((Nat × Nat) × RealPix)) :=
  fillGo ctrl bottomHalf cx cy samples [] (rowMajorCoords ctrl.width ctrl.height)

/-- Embedding of refillCorner: find the center (aborting the run when no
control pixel matches the center colour), collect and sort the angular
samples, then fill every target pixel. The result is the list of target
writes; an error result models an aborted run with no output. -/
noncomputable def refillCorner (src ctrl : ImageData) (bottomHalf : Bool) :
    Except RefillErr (List ((Nat × Nat) × RealPix)) :=
  match findCenter ctrl with
  | none => .error .noCenter
  | some c =>
    fillTargets ctrl bottomHalf c.1 c.2
      (sortSamples (collectSamples src ctrl bottomHalf c.1 c.2))

/- ----------------------------------------------------------------
Concrete buffers used by the counterexamples and witnesses.
---------------------------------------------------------------- -/

/-- A 3-by-3 source whose pixel number k holds bytes (k, k, k, 255). -/
def srcA : ImageData :=
  ImageData.mk 3 3
    [0, 0, 0, 255, 1, 1, 1, 255, 2, 2, 2, 255,
     3, 3, 3, 255, 4, 4, 4, 255, 5, 5, 5, 255,
     6, 6, 6, 255, 7, 7, 7, 255, 8, 8, 8, 255]

/-- A fully transparent 2-by-2 control image. -/
def ctrlTransparent : ImageData :=
  ImageData.mk 2 2 [0, 0, 0, 0, 0, 0, 0, 0, 0, 0, 0, 0, 0, 0, 0, 0]

/-- A 2-by-2 source with four distinct colours. -/
def srcB : ImageData :=
  ImageData.mk 2 2 [10, 0, 0, 255, 20, 0, 0, 255, 30, 0, 0, 255, 40, 0, 0, 255]

/-- A 2-by-2 control image: blue (extend right) at (0, 0), green
(extend up) at (0, 1), transparent elsewhere. -/
def ctrlB : ImageData :=
  ImageData.mk 2 2 [0, 0, 255, 255, 0, 0, 0, 0, 0, 255, 0, 255, 0, 0, 0, 0]

/-- A 2-by-2 source with twelve distinct byte values. -/
def srcC : ImageData :=
  ImageData.mk 2 2 [1, 2, 3, 255, 4, 5, 6, 255, 7, 8, 9, 255, 10, 11, 12, 255]

/-- A 1-by-1 source with a single opaque pixel. -/
def srcD : ImageData := ImageData.mk 1 1 [5, 6, 7, 255]

/-- A 2-by-2 control image with a red (extend left) directive at (1, 1). -/
def ctrlRed : ImageData :=
  ImageData.mk 2 2 [0, 0, 0, 0, 0, 0, 0, 0, 0, 0, 0, 0, 255, 0, 0, 255]

/-- A 2-by-2 control quadrant with a center marker at (0, 0), a target
marker at (1, 0) and no edge marker anywhere. -/
def ctrlNoEdge : ImageData :=
  ImageData.mk 2 2 [0, 255, 0, 255, 0, 0, 0, 255, 0, 0, 0, 0, 0, 0, 0, 0]

/-- A control quadrant with two center markers, at (1, 0) and (0, 1). -/
def ctrlTwoCenters : ImageData :=
  ImageData.mk 2 2 [0, 0, 0, 0, 0, 255, 0, 255, 0, 255, 0, 255, 0, 0, 0, 0]

/-- Two samples sharing the angle 0 with distinct colours, as produced by
two edge pixels collinear with the center. -/
noncomputable def dupSamples : List Sample :=
  [Sample.mk 0 (1, 2, 3, 255), Sample.mk 0 (9, 9, 9, 255)]

/-- Two samples at angles 0 and 1 with distinct colours. -/
noncomputable def twoSamples : List Sample :=
  [Sample.mk 0 (1, 2, 3, 255), Sample.mk 1 (9, 9, 9, 255)]

/-- A 2-by-2 control image with a single green (extend up) directive at
(0, 1), whose overwrite range contains no other directive. -/
def ctrlGreen : ImageData :=
  ImageData.mk 2 2 [0, 0, 0, 0, 0, 0, 0, 0, 0, 255, 0, 255, 0, 0, 0, 0]

/- ----------------------------------------------------------------
Theorems. Generic list helpers come first, then the per-claim results.
---------------------------------------------------------------- -/

/-- A keep-last fold over a list returns the last matching element, or
the initial accumulator when nothing matches. -/
theorem keepLast_foldl (p : α → Bool) (l : List α) :
    ∀ init : Option α,
      l.foldl (fun acc x => if p x then some x else acc) init =
        match (l.filter p).getLast? with
        | some x => some x
        | none => init := by
  induction l with
  | nil => intro init; rfl
  | cons x t ih =>
    intro init
    rw [List.foldl_cons, ih]
    by_cases hp : p x
    · rw [if_pos hp, List.filter_cons_of_pos hp]
      cases t.filter p with
      | nil => rfl
      | cons y s =>
        rw [List.getLast?_cons_cons]
        cases h : (y :: s).getLast? with
        | none => exact absurd (List.getLast?_eq_none_iff.mp h) (by simp)
        | some z => rfl
    · rw [if_neg hp, List.filter_cons_of_neg hp]

/-- A fold that conditionally overwrites the accumulator leaves the
initial value untouched when no element matches. -/
theorem foldl_if_none (cond : α → Prop) [DecidablePred cond] (val : α → β)
    (l : List α) (h : ∀ x ∈ l, ¬cond x) :
    ∀ b : β, l.foldl (fun acc x => if cond x then val x else acc) b = b := by
  induction l with
  | nil => intro b; rfl
  | cons x t ih =>
    intro b
    rw [List.foldl_cons, if_neg (h x (List.mem_cons_self x t))]
    exact ih (fun z hz => h z (List.mem_cons_of_mem x hz)) b

/-- Applying a conditional-overwrite fold twice yields the same result
as applying it once: every overwritten position receives the same value
both times. -/
theorem fold_overwrite_idem (cond : α → Prop) [DecidablePred cond] (val : α → β)
    (l : List α) (b : β) :
    l.foldl (fun acc x => if cond x then val x else acc)
        (l.foldl (fun acc x => if cond x then val x else acc) b) =
      l.foldl (fun acc x => if cond x then val x else acc) b := by
  induction l using List.reverseRecOn with
  | nil => rfl
  | append_singleton t x ih =>
    simp only [List.foldl_append, List.foldl_cons, List.foldl_nil]
    by_cases h : cond x
    · simp [h]
    · simp only [if_neg h]
      exact ih

/-- The first-index search finds index 0 whenever the head matches. -/
theorem findFirstIdxB_head (p : α → Bool) (x : α) (l : List α) (h : p x = true) :
    findFirstIdxB p (x :: l) = some 0 := by
  simp [findFirstIdxB, h]

/-- The first-index search fails when no element matches. -/
theorem findFirstIdxB_none (p : α → Bool) (l : List α) (h : ∀ x ∈ l, p x = false) :
    findFirstIdxB p l = none := by
  induction l with
  | nil => rfl
  | cons x t ih =>
    have hx := h x (List.mem_cons_self x t)
    simp [findFirstIdxB, hx, ih (fun z hz => h z (List.mem_cons_of_mem x hz))]

/-- The last-index search fails when no element matches. -/
theorem findLastIdxB_none (p : α → Bool) (l : List α) (h : ∀ x ∈ l, p x = false) :
    findLastIdxB p l = none := by
  induction l with
  | nil => rfl
  | cons x t ih =>
    have hx := h x (List.mem_cons_self x t)
    simp [findLastIdxB, hx, ih (fun z hz => h z (List.mem_cons_of_mem x hz))]

/-- The last-index search on a list ending in a matching element returns
the final index. -/
theorem findLastIdxB_append_last (p : α → Bool) (l : List α) (x : α)
    (h : p x = true) : findLastIdxB p (l ++ [x]) = some l.length := by
  induction l with
  | nil => simp [findLastIdxB, h]
  | cons a t ih => simp [findLastIdxB, ih]

/-- A successful first-index search returns an in-range index. -/
theorem findFirstIdxB_lt_length (p : α → Bool) (l : List α) (i : Nat)
    (h : findFirstIdxB p l = some i) : i < l.length := by
  induction l generalizing i with
  | nil => exact absurd h (by simp [findFirstIdxB])
  | cons x t ih =>
    by_cases hx : p x
    · rw [findFirstIdxB_head p x t hx] at h
      injection h with h
      simp only [List.length_cons]
      omega
    · simp only [findFirstIdxB, hx, if_false, Bool.false_eq_true] at h
      cases hf : findFirstIdxB p t with
      | none => rw [hf] at h; exact absurd h (by simp)
      | some m =>
        rw [hf] at h
        simp at h
        have := ih m hf
        simp only [List.length_cons]
        omega

/-- A successful last-index search returns an in-range index. -/
theorem findLastIdxB_lt_length (p : α → Bool) (l : List α) (i : Nat)
    (h : findLastIdxB p l = some i) : i < l.length := by
  induction l generalizing i with
  | nil => exact absurd h (by simp [findLastIdxB])
  | cons x t ih =>
    simp only [findLastIdxB] at h
    cases hf : findLastIdxB p t with
    | none =>
      rw [hf] at h
      by_cases hx : p x
      · rw [if_pos hx] at h
        injection h with h
        simp only [List.length_cons]
        omega
      · rw [if_neg hx] at h; exact absurd h (by simp)
    | some m =>
      rw [hf] at h
      injection h with h
      have := ih m hf
      simp only [List.length_cons]
      omega

/-- Every element of a list sorted weakly by angle is at least the head. -/
theorem pairwise_head_le (l : List Sample) (hne : l ≠ [])
    (hs : l.Pairwise (fun s1 s2 => s1.angle ≤ s2.angle)) :
    ∀ x ∈ l, (l.head hne).angle ≤ x.angle := by
  cases l with
  | nil => exact absurd rfl hne
  | cons s t =>
    intro x hx
    rcases List.mem_cons.mp hx with rfl | hx2
    · exact le_refl _
    · exact (List.pairwise_cons.mp hs).1 x hx2

/-- Every element of a list sorted weakly by angle is at most the last. -/
theorem pairwise_le_getLast (l : List Sample) (hne : l ≠ [])
    (hs : l.Pairwise (fun s1 s2 => s1.angle ≤ s2.angle)) :
    ∀ x ∈ l, x.angle ≤ (l.getLast hne).angle := by
  intro x hx
  obtain ⟨i, hi, rfl⟩ := List.mem_iff_getElem.mp hx
  rw [List.getLast_eq_getElem l hne]
  rcases Nat.lt_or_ge i (l.length - 1) with hlt | hge
  · exact List.pairwise_iff_getElem.mp hs i (l.length - 1) hi (by omega) hlt
  · have hieq : i = l.length - 1 := by omega
    subst hieq
    exact le_refl _

/-- The lower-bracket index is always in range when it exists. -/
theorem bracketBeforeIdx_lt (samples : List Sample) (t : ℝ) (i : Nat)
    (h : bracketBeforeIdx samples t = some i) : i < samples.length := by
  unfold bracketBeforeIdx at h
  cases hf : findLastIdxB (fun s => decide (s.angle ≤ t)) samples with
  | some m =>
    rw [hf] at h
    injection h with h
    subst h
    exact findLastIdxB_lt_length _ _ _ hf
  | none =>
    rw [hf] at h
    by_cases he : samples.isEmpty = true
    · rw [if_pos he] at h; exact absurd h (by simp)
    · rw [if_neg he] at h
      injection h with h
      have hne : samples ≠ [] := by simpa [List.isEmpty_iff] using he
      have := List.length_pos.mpr hne
      omega

/-- The upper-bracket index is always in range when it exists. -/
theorem bracketAfterIdx_lt (samples : List Sample) (t : ℝ) (j : Nat)
    (h : bracketAfterIdx samples t = some j) : j < samples.length := by
  unfold bracketAfterIdx at h
  cases hf : findFirstIdxB (fun s => decide (t ≤ s.angle)) samples with
  | some m =>
    rw [hf] at h
    injection h with h
    subst h
    exact findFirstIdxB_lt_length _ _ _ hf
  | none =>
    rw [hf] at h
    by_cases he : samples.isEmpty = true
    · rw [if_pos he] at h; exact absurd h (by simp)
    · rw [if_neg he] at h
      injection h with h
      have hne : samples ≠ [] := by simpa [List.isEmpty_iff] using he
      have := List.length_pos.mpr hne
      omega

/-- Unfolding of targetColor once both bracket indices and both sample
lookups are known. -/
theorem targetColor_eq_of_brackets (samples : List Sample) (t : ℝ) (i j : Nat)
    (hi : bracketBeforeIdx samples t = some i) (hj : bracketAfterIdx samples t = some j)
    (si sj : Sample) (hsi : samples[i]? = some si) (hsj : samples[j]? = some sj) :
    targetColor samples t = .ok (if i = j then pixCast si.color else lerpPix si sj t) := by
  unfold targetColor
  rw [hi, hj]
  simp only [hsi, hsj]

/-- The only error targetColor can produce is the undefined-sample
dereference. -/
theorem targetColor_error_eq (samples : List Sample) (t : ℝ) (e : RefillErr)
    (h : targetColor samples t = .error e) : e = .undefinedSample := by
  cases h1 : bracketBeforeIdx samples t with
  | none =>
    unfold targetColor at h
    rw [h1] at h
    simp at h
    exact h.symm
  | some i =>
    cases h2 : bracketAfterIdx samples t with
    | none =>
      unfold targetColor at h
      rw [h1, h2] at h
      simp at h
      exact h.symm
    | some j =>
      unfold targetColor at h
      rw [h1, h2] at h
      cases h3 : samples[i]? with
      | none =>
        simp [h3] at h
        exact h.symm
      | some sb =>
        cases h4 : samples[j]? with
        | none =>
          simp [h3, h4] at h
          exact h.symm
        | some sa =>
          simp [h3, h4] at h

/-- Claim C1 (code bug evaluation): with a fully transparent 2-by-2
control image on a 3-by-3 source, every control pixel read with the
control image own width has alpha 0, yet extendSides mutates the source:
the control bytes are read with the SOURCE width as stride, so the read
at anchor (1, 1) falls outside the control data, fails the alpha test
and decodes as a down directive that overwrites source pixel (1, 2)
with the colour of source pixel (1, 1). -/
theorem extendSides_misreads_smaller_control :
    ((getPixel ctrlTransparent.data ctrlTransparent.width 0 0).a = some 0
      ∧ (getPixel ctrlTransparent.data ctrlTransparent.width 1 0).a = some 0
      ∧ (getPixel ctrlTransparent.data ctrlTransparent.width 0 1).a = some 0
      ∧ (getPixel ctrlTransparent.data ctrlTransparent.width 1 1).a = some 0)
    ∧ extendSides srcA ctrlTransparent ≠ srcA
    ∧ px (extendSides srcA ctrlTransparent) 1 2 = (4, 4, 4, 255)
    ∧ px srcA 1 2 = (7, 7, 7, 255) := by
  refine ⟨⟨by decide, by decide, by decide, by decide⟩, by decide, by decide, by decide⟩

/-- Claim C2 (counterexample): extendSides is not idempotent. On a
2-by-2 source with a blue (extend right) directive at (0, 0) and a green
(extend up) directive at (0, 1), the up directive overwrites the anchor
of the right directive, so a second application writes a different
colour to pixel (1, 0). -/
theorem extendSides_not_idempotent_cex :
    extendSides (extendSides srcB ctrlB) ctrlB ≠ extendSides srcB ctrlB := by
  decide

/-- Claim C4 (counterexample): a raw angle of exactly 0 on a bottom-half
quadrant is kept at 0 by the code (the branch keeps rawAngle whenever
rawAngle is at most 0), whereas the claim maps every non-negative raw
angle to rawAngle minus two pi. -/
theorem adjustedAngle_zero_bottom_cex :
    adjustedAngle true 0 ≠ 0 - 2 * Real.pi := by
  have hpi := Real.pi_pos
  unfold adjustedAngle
  simp only [if_true]
  rw [if_pos (le_refl (0 : ℝ))]
  intro h
  linarith

/-- Claim C4 (amended): every sample and target angle is
adjustedAngle applied to atan2(centerY - y, x - centerX); on bottom-half
quadrants every non-POSITIVE raw angle is kept and every strictly
positive raw angle maps to rawAngle minus two pi; on top-half quadrants
every non-negative raw angle is kept and every strictly negative raw
angle maps to rawAngle plus two pi. -/
theorem angle_adjustment_spec (b : Bool) (raw : ℝ) (cx cy x y : Nat) :
    pixelAngle b cx cy x y
        = adjustedAngle b (atan2 ((cy : ℝ) - (y : ℝ)) ((x : ℝ) - (cx : ℝ)))
    ∧ (b = true → raw ≤ 0 → adjustedAngle b raw = raw)
    ∧ (b = true → 0 < raw → adjustedAngle b raw = raw - 2 * Real.pi)
    ∧ (b = false → 0 ≤ raw → adjustedAngle b raw = raw)
    ∧ (b = false → raw < 0 → adjustedAngle b raw = raw + 2 * Real.pi) := by
  refine ⟨rfl, ?_, ?_, ?_, ?_⟩
  · rintro rfl h
    unfold adjustedAngle
    simp only [if_true]
    rw [if_pos h]
  · rintro rfl h
    unfold adjustedAngle
    simp only [if_true]
    rw [if_neg (not_le.mpr h)]
  · rintro rfl h
    unfold adjustedAngle
    simp only [Bool.false_eq_true, if_false]
    rw [if_pos h]
  · rintro rfl h
    unfold adjustedAngle
    simp only [Bool.false_eq_true, if_false]
    rw [if_neg (not_le.mpr h)]

/-- Witness for the amended claim C4 at the concrete raw angle 1 on a
bottom-half quadrant. -/
theorem angle_adjustment_witness :
    0 < (1 : ℝ) ∧ adjustedAngle true 1 = 1 - 2 * Real.pi :=
  ⟨one_pos, (angle_adjustment_spec true 1 0 0 0 0).2.2.1 rfl one_pos⟩

/-- Claim C7: with a nonempty sorted sample list, a target angle
strictly below the smallest sample angle receives exactly the first
sample colour, and a target angle strictly above the largest sample
angle receives exactly the last sample colour: the two selected
bracketing indices coincide at the extreme, so no interpolation weight
is computed. -/
theorem targetColor_clamps_at_extremes (samples : List Sample) (t : ℝ)
    (hs : samples.Pairwise (fun s1 s2 => s1.angle ≤ s2.angle)) (hne : samples ≠ []) :
    (t < (samples.head hne).angle →
      targetColor samples t = .ok (pixCast (samples.head hne).color))
    ∧ ((samples.getLast hne).angle < t →
      targetColor samples t = .ok (pixCast (samples.getLast hne).color)) := by
  have hempty : samples.isEmpty = false := by
    cases samples with
    | nil => exact absurd rfl hne
    | cons s rest => rfl
  constructor
  · intro hlt
    have hnone : findLastIdxB (fun s => decide (s.angle ≤ t)) samples = none := by
      apply findLastIdxB_none
      intro x hx
      have hhead := pairwise_head_le samples hne hs x hx
      simp only [decide_eq_false_iff_not, not_le]
      linarith
    have hbefore : bracketBeforeIdx samples t = some 0 := by
      unfold bracketBeforeIdx
      rw [hnone, hempty]
      rfl
    have hafter : bracketAfterIdx samples t = some 0 := by
      unfold bracketAfterIdx
      cases samples with
      | nil => exact absurd rfl hne
      | cons s rest =>
        rw [findFirstIdxB_head]
        simp only [decide_eq_true_eq]
        exact le_of_lt hlt
    have h0 : samples[0]? = some (samples.head hne) := by
      cases samples with
      | nil => exact absurd rfl hne
      | cons s rest => simp
    rw [targetColor_eq_of_brackets samples t 0 0 hbefore hafter _ _ h0 h0]
    simp
  · intro hgt
    have hfl : findLastIdxB (fun s => decide (s.angle ≤ t)) samples
        = some (samples.length - 1) := by
      have hd : samples.dropLast ++ [samples.getLast hne] = samples :=
        List.dropLast_concat_getLast hne
      have hstep : findLastIdxB (fun s => decide (s.angle ≤ t))
          (samples.dropLast ++ [samples.getLast hne]) = some samples.dropLast.length :=
        findLastIdxB_append_last _ _ _
          (by simp only [decide_eq_true_eq]; linarith)
      rw [hd] at hstep
      rw [hstep, List.length_dropLast]
    have hbefore : bracketBeforeIdx samples t = some (samples.length - 1) := by
      unfold bracketBeforeIdx
      rw [hfl]
    have hnone : findFirstIdxB (fun s => decide (t ≤ s.angle)) samples = none := by
      apply findFirstIdxB_none
      intro x hx
      have := pairwise_le_getLast samples hne hs x hx
      simp only [decide_eq_false_iff_not, not_le]
      linarith
    have hafter : bracketAfterIdx samples t = some (samples.length - 1) := by
      unfold bracketAfterIdx
      rw [hnone, hempty]
      rfl
    have hlast : samples[samples.length - 1]? = some (samples.getLast hne) := by
      rw [List.getLast_eq_getElem samples hne]
      exact List.getElem?_eq_getElem (by have := List.length_pos.mpr hne; omega)
    rw [targetColor_eq_of_brackets samples t _ _ hbefore hafter _ _ hlast hlast]
    simp

/-- Witness for claim C7: two concrete samples at angles 0 and 1, and a
target angle of -1 that clamps to the first sample colour. -/
theorem targetColor_clamps_witness :
    (-1 : ℝ) < ((twoSamples.head (by simp [twoSamples])).angle)
    ∧ targetColor twoSamples (-1)
        = .ok (pixCast (twoSamples.head (by simp [twoSamples])).color) := by
  have hs : twoSamples.Pairwise (fun s1 s2 => s1.angle ≤ s2.angle) := by
    simp [twoSamples]
  have hne : twoSamples ≠ [] := by simp [twoSamples]
  have hlt : (-1 : ℝ) < (twoSamples.head hne).angle := by
    simp [twoSamples]
  exact ⟨hlt, (targetColor_clamps_at_extremes twoSamples (-1) hs hne).1 hlt⟩

/-- Claim C8 (counterexample): two samples can share an angle (two edge
pixels collinear with the center). At target angle 0 on two samples of
angle 0, the selected lower bracket is index 1 and the upper bracket is
index 0: the entries are NOT identical, yet the interpolation divisor,
the difference of their angles, is 0. -/
theorem bracket_duplicate_angle_cex :
    bracketBeforeIdx dupSamples 0 = some 1 ∧ bracketAfterIdx dupSamples 0 = some 0
    ∧ (dupSamples.get ⟨1, by simp [dupSamples]⟩).angle
        - (dupSamples.get ⟨0, by simp [dupSamples]⟩).angle = 0 := by
  refine ⟨?_, ?_, ?_⟩
  · simp [bracketBeforeIdx, findLastIdxB, dupSamples]
  · simp [bracketAfterIdx, findFirstIdxB, dupSamples]
  · simp [dupSamples]

/-- Claim C8 (amended): when the sorted samples have pairwise distinct
angles, the target fill never divides by zero: equal bracket indices
take the sample colour exactly without interpolating, and distinct
bracket indices always carry distinct angles, so the divisor
(upper angle minus lower angle) is nonzero. -/
theorem targetColor_no_div_zero (samples : List Sample) (t : ℝ) (i j : Nat)
    (hdist : samples.Pairwise (fun s1 s2 => s1.angle ≠ s2.angle))
    (hi : bracketBeforeIdx samples t = some i)
    (hj : bracketAfterIdx samples t = some j) :
    i < samples.length ∧ j < samples.length
    ∧ (i = j → ∀ s : Sample, samples[i]? = some s →
        targetColor samples t = .ok (pixCast s.color))
    ∧ (i ≠ j → ∀ si sj : Sample, samples[i]? = some si → samples[j]? = some sj →
        sj.angle - si.angle ≠ 0) := by
  have hilt := bracketBeforeIdx_lt samples t i hi
  have hjlt := bracketAfterIdx_lt samples t j hj
  refine ⟨hilt, hjlt, ?_, ?_⟩
  · intro hij s his
    subst hij
    rw [targetColor_eq_of_brackets samples t i i hi hj _ _ his his]
    simp
  · intro hij si sj hsi hsj
    have hsi2 : samples[i] = si := by
      rw [List.getElem?_eq_getElem hilt] at hsi
      injection hsi
    have hsj2 : samples[j] = sj := by
      rw [List.getElem?_eq_getElem hjlt] at hsj
      injection hsj
    have hne2 : si.angle ≠ sj.angle := by
      rcases Nat.lt_or_ge i j with hlt | hge
      · have := List.pairwise_iff_getElem.mp hdist i j hilt hjlt hlt
        rw [hsi2, hsj2] at this
        exact this
      · have hlt2 : j < i := by omega
        have := List.pairwise_iff_getElem.mp hdist j i hjlt hilt hlt2
        rw [hsi2, hsj2] at this
        exact fun hc => this hc.symm
    intro hzero
    exact hne2 (by linarith)

/-- Witness for the amended claim C8: two concrete samples at distinct
angles 0 and 1 and target angle 2; both brackets select index 1 and the
target takes that sample colour exactly. -/
theorem targetColor_no_div_zero_witness :
    bracketBeforeIdx twoSamples 2 = some 1 ∧ bracketAfterIdx twoSamples 2 = some 1
    ∧ targetColor twoSamples 2 = .ok (pixCast (9, 9, 9, 255)) := by
  have hdist : twoSamples.Pairwise (fun s1 s2 => s1.angle ≠ s2.angle) := by
    simp [twoSamples]
  have hi : bracketBeforeIdx twoSamples 2 = some 1 := by
    norm_num [bracketBeforeIdx, findLastIdxB, twoSamples]
  have hj : bracketAfterIdx twoSamples 2 = some 1 := by
    norm_num [bracketAfterIdx, findFirstIdxB, twoSamples]
  refine ⟨hi, hj, ?_⟩
  have := (targetColor_no_div_zero twoSamples 2 1 1 hdist hi hj).2.2.1 rfl
      (Sample.mk 1 (9, 9, 9, 255)) (by simp [twoSamples])
  simpa [twoSamples] using this

/-- The sample sort used by refillCorner produces a weakly
angle-ascending list, so the sortedness hypotheses of the clamping and
division-safety results hold for every sample list the code builds. -/
theorem sortSamples_sorted (l : List Sample) :
    (sortSamples l).Pairwise (fun s1 s2 => s1.angle ≤ s2.angle) := by
  unfold sortSamples
  refine (List.sorted_mergeSort ?_ ?_ l).imp (fun hab => by simpa using hab)
  · intro a b c hab hbc
    simp only [decide_eq_true_eq] at *
    exact le_trans hab hbc
  · intro a b
    rcases le_total a.angle b.angle with h | h <;> simp [h]

/-- With no samples at all, both bracket fallbacks are undefined and the
colour lookup is the undefined-sample runtime error. -/
theorem targetColor_nil (t : ℝ) : targetColor [] t = .error .undefinedSample := by
  unfold targetColor bracketBeforeIdx bracketAfterIdx
  simp [findFirstIdxB, findLastIdxB]

/-- The target-fill loop never produces the missing-center abort: its
only failure is the undefined-sample dereference. -/
theorem fillGo_ne_noCenter (ctrl : ImageData) (b : Bool) (cx cy : Nat)
    (samples : List Sample) (L : List (Nat × Nat)) :
    ∀ acc, fillGo ctrl b cx cy samples acc L ≠ .error .noCenter := by
  induction L with
  | nil =>
    intro acc h
    exact absurd h (by simp [fillGo])
  | cons xy rest ih =>
    intro acc
    by_cases ht : hasColor ctrl.data ctrl.width xy.1 xy.2 TARGET_COLOR = true
    · cases hc : targetColor samples (pixelAngle b cx cy xy.1 xy.2) with
      | ok col =>
        simp only [fillGo, if_pos ht, hc]
        exact ih _
      | error e =>
        have he := targetColor_error_eq _ _ _ hc
        subst he
        simp [fillGo, if_pos ht, hc]
    · simp only [fillGo, if_neg ht]
      exact ih _

/-- With an empty sample list, the fill aborts with the undefined-sample
error as soon as the coordinate list contains a target pixel. -/
theorem fillGo_error_of_target (ctrl : ImageData) (b : Bool) (cx cy : Nat)
    (L : List (Nat × Nat)) :
    ∀ acc, (∃ xy ∈ L, hasColor ctrl.data ctrl.width xy.1 xy.2 TARGET_COLOR = true) →
      fillGo ctrl b cx cy [] acc L = .error .undefinedSample := by
  induction L with
  | nil =>
    rintro acc ⟨xy, hxy, _⟩
    cases hxy
  | cons xy rest ih =>
    rintro acc ⟨z, hz, hcol⟩
    rcases List.mem_cons.mp hz with rfl | hz2
    · simp [fillGo, if_pos hcol, targetColor_nil]
    · by_cases ht : hasColor ctrl.data ctrl.width xy.1 xy.2 TARGET_COLOR = true
      · simp only [fillGo, if_pos ht, targetColor_nil]
      · simp only [fillGo, if_neg ht]
        exact ih _ ⟨z, hz2, hcol⟩

/-- The keep-last center scan equals the last row-major match. -/
theorem findCenter_eq_getLast (ctrl : ImageData) :
    findCenter ctrl = (centerCoords ctrl).getLast? := by
  unfold findCenter centerCoords
  rw [keepLast_foldl]
  cases ((rowMajorCoords ctrl.width ctrl.height).filter
      (fun xy => hasColor ctrl.data ctrl.width xy.1 xy.2 CENTER_COLOR)).getLast? <;> rfl

/-- Claim C3: center detection keeps the LAST control pixel matching the
center colour in row-major scan order (the fold result is the last
element of the row-major match list), and the whole quadrant pass
aborts, producing no output, exactly when no center marker exists. -/
theorem refillCorner_center_policy (src ctrl : ImageData) (b : Bool) :
    findCenter ctrl = (centerCoords ctrl).getLast?
    ∧ (refillCorner src ctrl b = .error .noCenter ↔ findCenter ctrl = none) := by
  refine ⟨findCenter_eq_getLast ctrl, ?_, ?_⟩
  · intro h
    cases hc : findCenter ctrl with
    | none => rfl
    | some c =>
      unfold refillCorner at h
      rw [hc] at h
      exact absurd h (fillGo_ne_noCenter ctrl b c.1 c.2 _ _ [])
  · intro h
    unfold refillCorner
    rw [h]

/-- Claim C10: a quadrant whose control image holds a center marker and
at least one target marker but no edge marker is neither left untouched
nor reported as a configuration error: the sample list is empty, both
bracket fallbacks are undefined, and the pass fails with the runtime
dereference of an undefined sample. -/
theorem refillCorner_no_edge_runtime_error (src ctrl : ImageData) (b : Bool)
    (c : Nat × Nat) (hc : findCenter ctrl = some c) (he : edgeCoords ctrl = [])
    (ht : targetCoords ctrl ≠ []) :
    refillCorner src ctrl b = .error .undefinedSample := by
  unfold refillCorner
  rw [hc]
  show fillTargets ctrl b c.1 c.2 (sortSamples (collectSamples src ctrl b c.1 c.2))
      = .error .undefinedSample
  have hsamples : collectSamples src ctrl b c.1 c.2 = [] := by
    unfold collectSamples
    rw [he]
    rfl
  rw [hsamples, show sortSamples ([] : List Sample) = [] from List.mergeSort_nil]
  unfold fillTargets
  apply fillGo_error_of_target
  obtain ⟨xy, hxy⟩ := List.exists_mem_of_ne_nil _ ht
  have hmem := List.mem_filter.mp hxy
  exact ⟨xy, hmem.1, hmem.2⟩

/-- Pixel cells are linearly ordered inside the data block. -/
theorem cell_lt {x y w h : Nat} (hx : x < w) (hy : y < h) : x + y * w < w * h := by
  calc x + y * w < w + y * w := by omega
    _ = (y + 1) * w := by ring
    _ ≤ h * w := Nat.mul_le_mul_right w hy
    _ = w * h := Nat.mul_comm h w

/-- Reading a pixel back from a built data block returns the canvas
value at that coordinate. -/
theorem pxData_buildData (W H : Nat) (f : ℤ → ℤ → PixB) (x y : Nat)
    (hx : x < W) (hy : y < H) :
    pxData (buildData W H f) W x y = f (x : ℤ) (y : ℤ) := by
  have hcell : x + y * W < W * H := cell_lt hx hy
  have hW : 0 < W := by omega
  have key : ∀ k, k < 4 → (buildData W H f)[4 * (x + y * W) + k]? =
      some (pixComp (f (x : ℤ) (y : ℤ)) k) := by
    intro k hk
    have hn : 4 * (x + y * W) + k < 4 * W * H := by
      have h1 : 4 * W * H = 4 * (W * H) := by ring
      omega
    have hq : (4 * (x + y * W) + k) / 4 = x + y * W := by omega
    have hr : (4 * (x + y * W) + k) % 4 = k := by omega
    have hxw : (x + y * W) % W = x := by
      rw [Nat.add_mul_mod_self_right]
      exact Nat.mod_eq_of_lt hx
    have hyw : (x + y * W) / W = y := by
      rw [Nat.add_mul_div_right x y hW, Nat.div_eq_of_lt hx]
      omega
    have hstep : (4 * (x + y * W) + k) / 4 % W = x := by rw [hq]; exact hxw
    have hstep2 : (4 * (x + y * W) + k) / 4 / W = y := by rw [hq]; exact hyw
    unfold buildData
    rw [List.getElem?_map, List.getElem?_range hn]
    rw [show ((some (4 * (x + y * W) + k)).map
        (fun n => pixComp (f (((n / 4) % W : Nat) : ℤ) (((n / 4) / W : Nat) : ℤ)) (n % 4)))
        = some (pixComp (f ((((4 * (x + y * W) + k) / 4 % W : Nat)) : ℤ)
            ((((4 * (x + y * W) + k) / 4 / W : Nat)) : ℤ)) ((4 * (x + y * W) + k) % 4))
      from rfl]
    rw [hstep, hstep2, hr]
  have k0 : (buildData W H f)[pixIdx W x y]? = some (pixComp (f (x : ℤ) (y : ℤ)) 0) := by
    have := key 0 (by omega)
    simpa [pixIdx] using this
  have k1 : (buildData W H f)[pixIdx W x y + 1]? = some (pixComp (f (x : ℤ) (y : ℤ)) 1) := by
    have := key 1 (by omega)
    simpa [pixIdx] using this
  have k2 : (buildData W H f)[pixIdx W x y + 2]? = some (pixComp (f (x : ℤ) (y : ℤ)) 2) := by
    have := key 2 (by omega)
    simpa [pixIdx] using this
  have k3 : (buildData W H f)[pixIdx W x y + 3]? = some (pixComp (f (x : ℤ) (y : ℤ)) 3) := by
    have := key 3 (by omega)
    simpa [pixIdx] using this
  unfold pxData getPixel
  rw [k0, k1, k2, k3]
  rcases hfv : f (x : ℤ) (y : ℤ) with ⟨a, b, cc, d⟩
  simp [byteVal, pixComp]

/-- A paint that misses the device coordinate leaves the canvas value. -/
theorem paintImage_miss {c : ℤ → ℤ → PixB} {img : ImageData} {sx sy tx ty u v : ℤ}
    (h : ¬(0 ≤ (if sx = 1 then u - tx else tx - 1 - u)
        ∧ (if sx = 1 then u - tx else tx - 1 - u) < (img.width : ℤ)
        ∧ 0 ≤ (if sy = 1 then v - ty else ty - 1 - v)
        ∧ (if sy = 1 then v - ty else ty - 1 - v) < (img.height : ℤ))) :
    paintImage c img sx sy tx ty u v = c u v := by
  simp only [paintImage]
  rw [if_neg h]

/-- A paint that hits the device coordinate places the source pixel. -/
theorem paintImage_hit {c : ℤ → ℤ → PixB} {img : ImageData} {sx sy tx ty u v : ℤ}
    (x y : Nat)
    (hx : (if sx = 1 then u - tx else tx - 1 - u) = (x : ℤ))
    (hy2 : (if sy = 1 then v - ty else ty - 1 - v) = (y : ℤ))
    (hxw : x < img.width) (hyh : y < img.height) :
    paintImage c img sx sy tx ty u v = px img x y := by
  simp only [paintImage]
  rw [hx, hy2, if_pos ⟨Int.natCast_nonneg x, by exact_mod_cast hxw,
    Int.natCast_nonneg y, by exact_mod_cast hyh⟩]
  rw [Int.toNat_natCast, Int.toNat_natCast]

/-- Any in-range pixel of the addBleed output is the canvas value of the
painted bleed function at that device coordinate. -/
theorem px_addBleed (source : ImageData) (padding x y : Nat)
    (hx : x < source.width + 2 * padding) (hy : y < source.height + 2 * padding) :
    px (addBleed source padding) x y = bleedFun source padding (x : ℤ) (y : ℤ) := by
  unfold px addBleed
  exact pxData_buildData _ _ _ x y hx hy

/-- Claim C5: addBleed returns a buffer of dimensions
(width + 2 padding, height + 2 padding) whose pixel at
(padding + i, padding + j) exactly equals the source pixel at (i, j). -/
theorem addBleed_dims_and_center (source : ImageData) (padding i j : Nat)
    (hi : i < source.width) (hj : j < source.height) :
    (addBleed source padding).width = source.width + 2 * padding
    ∧ (addBleed source padding).height = source.height + 2 * padding
    ∧ px (addBleed source padding) (padding + i) (padding + j) = px source i j := by
  refine ⟨rfl, rfl, ?_⟩
  rw [px_addBleed source padding _ _ (by omega) (by omega)]
  unfold bleedFun COPIES
  simp only [List.foldl_cons, List.foldl_nil]
  rw [paintImage_miss (by norm_num; try omega)]
  rw [paintImage_miss (by norm_num; try omega)]
  rw [paintImage_miss (by norm_num; try omega)]
  rw [paintImage_miss (by norm_num; try omega)]
  rw [paintImage_miss (by norm_num; try omega)]
  rw [paintImage_miss (by norm_num; try omega)]
  rw [paintImage_miss (by norm_num; try omega)]
  rw [paintImage_miss (by norm_num; try omega)]
  rw [paintImage_hit i j (by norm_num; try omega) (by norm_num; try omega) hi hj]

/-- Claim C6 (counterexample): the stated left-mirror equality ranges
over every k below the padding, but when the padding exceeds the source
width the output pixel at (padding - 1 - k, padding + j) for k at least
the width is never painted (it stays transparent black), while the
source read at (k, j) wraps into a different pixel of the flat data.
Here the source is 2 by 2, the padding is 3, k is 2 and j is 0. -/
theorem addBleed_mirror_range_cex :
    px (addBleed srcC 3) 0 3 ≠ px srcC 2 0 := by
  rw [px_addBleed srcC 3 0 3 (by decide) (by decide)]
  decide

set_option maxHeartbeats 4000000 in
/-- Claim C6 (amended): the mirror equalities hold on the part of each
padding band covered by the mirrored copy, that is with the mirror
offset k additionally below the source extent on the mirrored axis:
left and right mirrors reflect horizontally, top and bottom mirrors
reflect vertically, and the four corner mirrors reflect both axes, per
the fixed scale and shift descriptors of the paint list. -/
theorem addBleed_mirror_reflections (source : ImageData) (padding : Nat) :
    (∀ k j, k < padding → k < source.width → j < source.height →
      px (addBleed source padding) (padding - 1 - k) (padding + j) = px source k j)
    ∧ (∀ k j, k < padding → k < source.width → j < source.height →
      px (addBleed source padding) (padding + source.width + k) (padding + j)
        = px source (source.width - 1 - k) j)
    ∧ (∀ i k, i < source.width → k < padding → k < source.height →
      px (addBleed source padding) (padding + i) (padding - 1 - k) = px source i k)
    ∧ (∀ i k, i < source.width → k < padding → k < source.height →
      px (addBleed source padding) (padding + i) (padding + source.height + k)
        = px source i (source.height - 1 - k))
    ∧ (∀ k l, k < padding → k < source.width → l < padding → l < source.height →
      px (addBleed source padding) (padding - 1 - k) (padding - 1 - l)
        = px source k l)
    ∧ (∀ k l, k < padding → k < source.width → l < padding → l < source.height →
      px (addBleed source padding) (padding + source.width + k) (padding - 1 - l)
        = px source (source.width - 1 - k) l)
    ∧ (∀ k l, k < padding → k < source.width → l < padding → l < source.height →
      px (addBleed source padding) (padding - 1 - k) (padding + source.height + l)
        = px source k (source.height - 1 - l))
    ∧ (∀ k l, k < padding → k < source.width → l < padding → l < source.height →
      px (addBleed source padding) (padding + source.width + k)
          (padding + source.height + l)
        = px source (source.width - 1 - k) (source.height - 1 - l)) := by
  refine ⟨?_, ?_, ?_, ?_, ?_, ?_, ?_, ?_⟩
  · intro k j hk hkw hj
    rw [px_addBleed source padding _ _ (by omega) (by omega)]
    unfold bleedFun COPIES
    simp only [List.foldl_cons, List.foldl_nil]
    rw [paintImage_miss (by norm_num; try omega)]
    rw [paintImage_miss (by norm_num; try omega)]
    rw [paintImage_miss (by norm_num; try omega)]
    rw [paintImage_miss (by norm_num; try omega)]
    rw [paintImage_miss (by norm_num; try omega)]
    rw [paintImage_miss (by norm_num; try omega)]
    rw [paintImage_miss (by norm_num; try omega)]
    rw [paintImage_hit k j (by norm_num; try omega) (by norm_num; try omega) hkw hj]
  · intro k j hk hkw hj
    rw [px_addBleed source padding _ _ (by omega) (by omega)]
    unfold bleedFun COPIES
    simp only [List.foldl_cons, List.foldl_nil]
    rw [paintImage_miss (by norm_num; try omega)]
    rw [paintImage_miss (by norm_num; try omega)]
    rw [paintImage_miss (by norm_num; try omega)]
    rw [paintImage_miss (by norm_num; try omega)]
    rw [paintImage_miss (by norm_num; try omega)]
    rw [paintImage_miss (by norm_num; try omega)]
    rw [paintImage_hit (source.width - 1 - k) j (by norm_num; try omega)
      (by norm_num; try omega) (by omega) hj]
  · intro i k hi hk hkh
    rw [px_addBleed source padding _ _ (by omega) (by omega)]
    unfold bleedFun COPIES
    simp only [List.foldl_cons, List.foldl_nil]
    rw [paintImage_miss (by norm_num; try omega)]
    rw [paintImage_miss (by norm_num; try omega)]
    rw [paintImage_miss (by norm_num; try omega)]
    rw [paintImage_miss (by norm_num; try omega)]
    rw [paintImage_miss (by norm_num; try omega)]
    rw [paintImage_hit i k (by norm_num; try omega) (by norm_num; try omega) hi hkh]
  · intro i k hi hk hkh
    rw [px_addBleed source padding _ _ (by omega) (by omega)]
    unfold bleedFun COPIES
    simp only [List.foldl_cons, List.foldl_nil]
    rw [paintImage_miss (by norm_num; try omega)]
    rw [paintImage_miss (by norm_num; try omega)]
    rw [paintImage_miss (by norm_num; try omega)]
    rw [paintImage_miss (by norm_num; try omega)]
    rw [paintImage_hit i (source.height - 1 - k) (by norm_num; try omega)
      (by norm_num; try omega) hi (by omega)]
  · intro k l hk hkw hl hlh
    rw [px_addBleed source padding _ _ (by omega) (by omega)]
    unfold bleedFun COPIES
    simp only [List.foldl_cons, List.foldl_nil]
    rw [paintImage_miss (by norm_num; try omega)]
    rw [paintImage_miss (by norm_num; try omega)]
    rw [paintImage_miss (by norm_num; try omega)]
    rw [paintImage_hit k l (by norm_num; try omega) (by norm_num; try omega) hkw hlh]
  · intro k l hk hkw hl hlh
    rw [px_addBleed source padding _ _ (by omega) (by omega)]
    unfold bleedFun COPIES
    simp only [List.foldl_cons, List.foldl_nil]
    rw [paintImage_miss (by norm_num; try omega)]
    rw [paintImage_miss (by norm_num; try omega)]
    rw [paintImage_hit (source.width - 1 - k) l (by norm_num; try omega)
      (by norm_num; try omega) (by omega) hlh]
  · intro k l hk hkw hl hlh
    rw [px_addBleed source padding _ _ (by omega) (by omega)]
    unfold bleedFun COPIES
    simp only [List.foldl_cons, List.foldl_nil]
    rw [paintImage_miss (by norm_num; try omega)]
    rw [paintImage_hit k (source.height - 1 - l) (by norm_num; try omega)
      (by norm_num; try omega) hkw (by omega)]
  · intro k l hk hkw hl hlh
    rw [px_addBleed source padding _ _ (by omega) (by omega)]
    unfold bleedFun COPIES
    simp only [List.foldl_cons, List.foldl_nil]
    rw [paintImage_hit (source.width - 1 - k) (source.height - 1 - l)
      (by norm_num; try omega) (by norm_num; try omega) (by omega) (by omega)]

/-- Witness for the amended claim C6: the 2-by-2 source with padding 2;
the left-mirror pixel at (1, 2) equals the source pixel at (0, 0). -/
theorem addBleed_mirror_reflections_witness :
    px (addBleed srcC 2) 1 2 = px srcC 0 0 :=
  (addBleed_mirror_reflections srcC 2).1 0 0 (by decide) (by decide) (by decide)

/-- Witness for claim C5: a 1-by-1 source with padding 1; the output
center pixel equals the source pixel. -/
theorem addBleed_dims_and_center_witness :
    (0 < srcD.width) ∧ (addBleed srcD 1).width = 3
    ∧ px (addBleed srcD 1) 1 1 = px srcD 0 0 := by
  have h := addBleed_dims_and_center srcD 1 0 0 (by decide) (by decide)
  exact ⟨by decide, h.1, h.2.2⟩

/-- Distinct in-row coordinates occupy distinct linear cells. -/
theorem cellIdx_ne {w x y u v : Nat} (hx : x < w) (hu : u < w)
    (hne : (u, v) ≠ (x, y)) : u + v * w ≠ x + y * w := by
  intro heq
  apply hne
  have hw : 0 < w := by omega
  have hx2 : (x + y * w) % w = x := by
    rw [Nat.add_mul_mod_self_right]
    exact Nat.mod_eq_of_lt hx
  have hu2 : (u + v * w) % w = u := by
    rw [Nat.add_mul_mod_self_right]
    exact Nat.mod_eq_of_lt hu
  have hxu : u = x := by rw [← hu2, heq, hx2]
  subst hxu
  have hyv : v * w = y * w := by omega
  have hv2 : v = y := Nat.eq_of_mul_eq_mul_right hw hyv
  rw [hv2]

/-- Length is preserved by a pixel store. -/
theorem length_setPixelData (d : List Nat) (w x y r g b a : Nat) :
    (setPixelData d w x y r g b a).length = d.length := by
  simp [setPixelData]

/-- A byte outside the four stored positions is unchanged. -/
theorem getElem?_setPixelData_ne {d : List Nat} {w x y r g b a : Nat} {n : Nat}
    (h : ∀ k, k < 4 → n ≠ pixIdx w x y + k) :
    (setPixelData d w x y r g b a)[n]? = d[n]? := by
  have h0 := h 0 (by omega)
  have h1 := h 1 (by omega)
  have h2 := h 2 (by omega)
  have h3 := h 3 (by omega)
  unfold setPixelData
  rw [List.getElem?_set_ne (by omega), List.getElem?_set_ne (by omega),
    List.getElem?_set_ne (by omega), List.getElem?_set_ne (by omega)]

/-- A pixel read away from the stored pixel is unchanged when both x
coordinates lie inside the row width. -/
theorem getPixel_setPixelData_ne (d : List Nat) (w x y u v r g b a : Nat)
    (hx : x < w) (hu : u < w) (hne : (u, v) ≠ (x, y)) :
    getPixel (setPixelData d w x y r g b a) w u v = getPixel d w u v := by
  have hcell : u + v * w ≠ x + y * w := cellIdx_ne hx hu hne
  have hbyte : ∀ j, j < 4 → ∀ k, k < 4 → pixIdx w u v + j ≠ pixIdx w x y + k := by
    intro j hj k hk
    unfold pixIdx
    omega
  have e0 : (setPixelData d w x y r g b a)[pixIdx w u v]? = d[pixIdx w u v]? :=
    getElem?_setPixelData_ne (fun k hk => by have := hbyte 0 (by omega) k hk; omega)
  have e1 : (setPixelData d w x y r g b a)[pixIdx w u v + 1]? = d[pixIdx w u v + 1]? :=
    getElem?_setPixelData_ne (fun k hk => hbyte 1 (by omega) k hk)
  have e2 : (setPixelData d w x y r g b a)[pixIdx w u v + 2]? = d[pixIdx w u v + 2]? :=
    getElem?_setPixelData_ne (fun k hk => hbyte 2 (by omega) k hk)
  have e3 : (setPixelData d w x y r g b a)[pixIdx w u v + 3]? = d[pixIdx w u v + 3]? :=
    getElem?_setPixelData_ne (fun k hk => hbyte 3 (by omega) k hk)
  unfold getPixel
  rw [e0, e1, e2, e3]

/-- The stored pixel reads back as the written bytes when the target
cell lies inside the data block. -/
theorem getPixel_setPixelData_self (d : List Nat) (w h x y r g b a : Nat)
    (hx : x < w) (hy : y < h) (hlen : d.length = 4 * w * h) :
    getPixel (setPixelData d w x y r g b a) w x y = somePix (r, g, b, a) := by
  have hcell : x + y * w < w * h := cell_lt hx hy
  have hlt : pixIdx w x y + 3 < d.length := by
    unfold pixIdx
    have h4 : 4 * w * h = 4 * (w * h) := by ring
    omega
  have e0 : (setPixelData d w x y r g b a)[pixIdx w x y]? = some r := by
    unfold setPixelData
    rw [List.getElem?_set_ne (by omega), List.getElem?_set_ne (by omega),
      List.getElem?_set_ne (by omega)]
    exact List.getElem?_set_eq (by omega)
  have e1 : (setPixelData d w x y r g b a)[pixIdx w x y + 1]? = some g := by
    unfold setPixelData
    rw [List.getElem?_set_ne (by omega), List.getElem?_set_ne (by omega)]
    exact List.getElem?_set_eq (by rw [List.length_set]; omega)
  have e2 : (setPixelData d w x y r g b a)[pixIdx w x y + 2]? = some b := by
    unfold setPixelData
    rw [List.getElem?_set_ne (by omega)]
    exact List.getElem?_set_eq (by rw [List.length_set, List.length_set]; omega)
  have e3 : (setPixelData d w x y r g b a)[pixIdx w x y + 3]? = some a := by
    unfold setPixelData
    exact List.getElem?_set_eq
      (by rw [List.length_set, List.length_set, List.length_set]; omega)
  unfold getPixel somePix
  rw [e0, e1, e2, e3]

/-- Width is preserved by writing a cell list. -/
theorem writeCells_width (L : List (Nat × Nat)) :
    ∀ (img : ImageData) (r g b a : Nat), (writeCells img L r g b a).width = img.width := by
  induction L with
  | nil => intro img r g b a; rfl
  | cons q T ih =>
    intro img r g b a
    show (writeCells (setPixel img q.1 q.2 r g b a) T r g b a).width = img.width
    rw [ih]
    rfl

/-- Height is preserved by writing a cell list. -/
theorem writeCells_height (L : List (Nat × Nat)) :
    ∀ (img : ImageData) (r g b a : Nat), (writeCells img L r g b a).height = img.height := by
  induction L with
  | nil => intro img r g b a; rfl
  | cons q T ih =>
    intro img r g b a
    show (writeCells (setPixel img q.1 q.2 r g b a) T r g b a).height = img.height
    rw [ih]
    rfl

/-- Data length is preserved by writing a cell list. -/
theorem writeCells_length (L : List (Nat × Nat)) :
    ∀ (img : ImageData) (r g b a : Nat),
      (writeCells img L r g b a).data.length = img.data.length := by
  induction L with
  | nil => intro img r g b a; rfl
  | cons q T ih =>
    intro img r g b a
    show (writeCells (setPixel img q.1 q.2 r g b a) T r g b a).data.length
        = img.data.length
    rw [ih]
    exact length_setPixelData _ _ _ _ _ _ _ _

/-- Pixel-level characterisation of writing the same bytes to a list of
cells: covered pixels hold the written bytes, everything else is
unchanged. -/
theorem writeCells_getPixel (W H : Nat) (L : List (Nat × Nat)) :
    ∀ (img : ImageData) (r g b a u v : Nat), img.width = W → img.height = H →
      img.data.length = 4 * W * H → (∀ q ∈ L, q.1 < W ∧ q.2 < H) →
      u < W → v < H →
      getPixel (writeCells img L r g b a).data W u v =
        if (u, v) ∈ L then somePix (r, g, b, a) else getPixel img.data W u v := by
  induction L with
  | nil =>
    intro img r g b a u v hiw hih hlen hb hu hv
    simp [writeCells]
  | cons q T ih =>
    intro img r g b a u v hiw hih hlen hb hu hv
    rcases hq0 : q with ⟨q1, q2⟩
    have hq := hb q (List.mem_cons_self q T)
    rw [hq0] at hq
    have hbT : ∀ z ∈ T, z.1 < W ∧ z.2 < H := fun z hz => hb z (List.mem_cons_of_mem q hz)
    subst hq0
    have hstep : writeCells img ((q1, q2) :: T) r g b a
        = writeCells (setPixel img q1 q2 r g b a) T r g b a := rfl
    rw [hstep]
    rw [ih (setPixel img q1 q2 r g b a) r g b a u v hiw hih
      (by simp [setPixel, length_setPixelData, hlen]) hbT hu hv]
    by_cases hT : (u, v) ∈ T
    · rw [if_pos hT, if_pos (List.mem_cons_of_mem (q1, q2) hT)]
    · rw [if_neg hT]
      by_cases hquv : (u, v) = (q1, q2)
      · rw [if_pos (by rw [hquv]; exact List.mem_cons_self (q1, q2) T)]
        injection hquv with hq1 hq2
        subst hq1
        subst hq2
        show getPixel (setPixelData img.data img.width u v r g b a) W u v = _
        rw [hiw]
        exact getPixel_setPixelData_self img.data W H u v r g b a hu hv hlen
      · rw [if_neg (by simp [List.mem_cons, hquv, hT])]
        show getPixel (setPixelData img.data img.width q1 q2 r g b a) W u v
            = getPixel img.data W u v
        rw [hiw]
        exact getPixel_setPixelData_ne img.data W q1 q2 u v r g b a hq.1 hu hquv

/-- Every cell of a directive lies inside the captured dimensions when
the anchor does. -/
theorem dirCells_bounds (W H x y : Nat) (c : Pix) (hx : x < W) (hy : y < H) :
    ∀ q ∈ dirCells W H x y c, q.1 < W ∧ q.2 < H := by
  intro q hq
  unfold dirCells at hq
  split_ifs at hq <;>
    (simp only [List.mem_map, List.mem_range] at hq; obtain ⟨k, hk, hk2⟩ := hq;
      rw [← hk2]; refine ⟨?_, ?_⟩ <;> simp <;> omega)

/-- Membership in a directive overwrite range, spelled out per decoded
direction. -/
theorem mem_dirCells_iff (W H x y u v : Nat) (c : Pix) :
    (u, v) ∈ dirCells W H x y c ↔
      (if c.r = some 255 then v = y ∧ u < x
       else if c.g = some 255 then u = x ∧ v < y
       else if c.b = some 255 then v = y ∧ x < u ∧ u < W
       else u = x ∧ y < v ∧ v < H) := by
  unfold dirCells
  split_ifs <;> simp only [List.mem_map, List.mem_range, Prod.mk.injEq]
  · constructor
    · rintro ⟨k, hk, h1, h2⟩
      omega
    · rintro ⟨h1, h2⟩
      exact ⟨u, by omega, rfl, by omega⟩
  · constructor
    · rintro ⟨k, hk, h1, h2⟩
      omega
    · rintro ⟨h1, h2⟩
      exact ⟨v, by omega, by omega, rfl⟩
  · constructor
    · rintro ⟨k, hk, h1, h2⟩
      omega
    · rintro ⟨h1, h2, h3⟩
      exact ⟨u - (x + 1), by omega, by omega, by omega⟩
  · constructor
    · rintro ⟨k, hk, h1, h2⟩
      omega
    · rintro ⟨h1, h2, h3⟩
      exact ⟨v - (y + 1), by omega, by omega, by omega⟩

/-- An anchor never lies inside its own overwrite range. -/
theorem anchor_not_mem_dirCells (W H x y : Nat) (c : Pix) :
    (x, y) ∉ dirCells W H x y c := by
  intro h
  unfold dirCells at h
  split_ifs at h <;>
    (simp only [List.mem_map, List.mem_range, Prod.mk.injEq] at h;
      obtain ⟨k, hk, hk1, hk2⟩ := h; omega)

/-- Pixel-level characterisation of one extendSides iteration: a skipped
anchor changes nothing; an active anchor overwrites exactly its
directive cells with the pre-step source colour at the anchor. -/
theorem extendStep_getPixel (control : ImageData) (W H : Nat) (img : ImageData)
    (p : Nat × Nat) (hiw : img.width = W) (hih : img.height = H)
    (hlen : img.data.length = 4 * W * H) (hp1 : p.1 < W) (hp2 : p.2 < H)
    (u v : Nat) (hu : u < W) (hv : v < H) :
    getPixel (extendStep control W H img p).data W u v =
      if activeAnchor control W p ∧ (u, v) ∈ anchorCells control W H p
      then somePix (pxData img.data W p.1 p.2)
      else getPixel img.data W u v := by
  by_cases hact : activeAnchor control W p
  · have hskip : ¬((getPixel control.data W p.1 p.2).a = some 0) := hact
    unfold extendStep
    rw [if_neg hskip]
    have hcells : ∀ q ∈ dirCells W H p.1 p.2 (getPixel control.data W p.1 p.2),
        q.1 < W ∧ q.2 < H := dirCells_bounds W H p.1 p.2 _ hp1 hp2
    rw [writeCells_getPixel W H _ img _ _ _ _ u v hiw hih hlen hcells hu hv]
    by_cases hmem : (u, v) ∈ anchorCells control W H p
    · rw [if_pos (by exact hmem), if_pos (show activeAnchor control W p
          ∧ (u, v) ∈ anchorCells control W H p from ⟨hact, hmem⟩)]
    · rw [if_neg (by exact hmem), if_neg (by simp [hmem])]
  · have heq : (getPixel control.data W p.1 p.2).a = some 0 := not_not.mp hact
    unfold extendStep
    rw [if_pos heq, if_neg (by simp [hact])]

/-- Width is preserved by one extendSides iteration. -/
theorem extendStep_width (control : ImageData) (W H : Nat) (img : ImageData)
    (p : Nat × Nat) : (extendStep control W H img p).width = img.width := by
  unfold extendStep
  split_ifs
  · rfl
  · exact writeCells_width _ _ _ _ _ _

/-- Height is preserved by one extendSides iteration. -/
theorem extendStep_height (control : ImageData) (W H : Nat) (img : ImageData)
    (p : Nat × Nat) : (extendStep control W H img p).height = img.height := by
  unfold extendStep
  split_ifs
  · rfl
  · exact writeCells_height _ _ _ _ _ _

/-- Data length is preserved by one extendSides iteration. -/
theorem extendStep_length (control : ImageData) (W H : Nat) (img : ImageData)
    (p : Nat × Nat) : (extendStep control W H img p).data.length = img.data.length := by
  unfold extendStep
  split_ifs
  · rfl
  · exact writeCells_length _ _ _ _ _ _

/-- Width is preserved by a whole extendSides pass. -/
theorem pass_width (control : ImageData) (W H : Nat) (l : List (Nat × Nat)) :
    ∀ img : ImageData, (l.foldl (extendStep control W H) img).width = img.width := by
  induction l with
  | nil => intro img; rfl
  | cons p T ih =>
    intro img
    rw [List.foldl_cons, ih, extendStep_width]

/-- Height is preserved by a whole extendSides pass. -/
theorem pass_height (control : ImageData) (W H : Nat) (l : List (Nat × Nat)) :
    ∀ img : ImageData, (l.foldl (extendStep control W H) img).height = img.height := by
  induction l with
  | nil => intro img; rfl
  | cons p T ih =>
    intro img
    rw [List.foldl_cons, ih, extendStep_height]

/-- Data length is preserved by a whole extendSides pass. -/
theorem pass_length (control : ImageData) (W H : Nat) (l : List (Nat × Nat)) :
    ∀ img : ImageData, (l.foldl (extendStep control W H) img).data.length
      = img.data.length := by
  induction l with
  | nil => intro img; rfl
  | cons p T ih =>
    intro img
    rw [List.foldl_cons, ih, extendStep_length]

/-- Membership in the extendSides scan order is exactly the bounds
check. -/
theorem mem_scanCoords (w h : Nat) (p : Nat × Nat) :
    p ∈ scanCoords w h ↔ p.1 < w ∧ p.2 < h := by
  rcases p with ⟨a, b⟩
  unfold scanCoords
  simp only [List.mem_flatMap, List.mem_map, List.mem_range, Prod.mk.injEq]
  constructor
  · rintro ⟨x, hx, y, hy, h1, h2⟩
    exact ⟨by omega, by omega⟩
  · rintro ⟨h1, h2⟩
    exact ⟨a, h1, b, h2, rfl, rfl⟩

/-- Pixel-level characterisation of a full extendSides pass under the
no-overwritten-anchor condition: the final value of each pixel is a
conditional-overwrite fold whose written values are the ORIGINAL anchor
colours, because no directive range ever touches an active anchor. -/
theorem pass_getPixel (control : ImageData) (W H : Nat) (l : List (Nat × Nat)) :
    ∀ img : ImageData, img.width = W → img.height = H →
      img.data.length = 4 * W * H →
      (∀ p ∈ l, p.1 < W ∧ p.2 < H) →
      (∀ p ∈ l, activeAnchor control W p → ∀ q ∈ l, activeAnchor control W q →
        q ∉ anchorCells control W H p) →
      ∀ u v : Nat, u < W → v < H →
        getPixel (l.foldl (extendStep control W H) img).data W u v =
          l.foldl
            (fun acc p =>
              if activeAnchor control W p ∧ (u, v) ∈ anchorCells control W H p
              then somePix (pxData img.data W p.1 p.2) else acc)
            (getPixel img.data W u v) := by
  induction l with
  | nil =>
    intro img hiw hih hlen hb ha u v hu hv
    rfl
  | cons p T ih =>
    intro img hiw hih hlen hb ha u v hu hv
    have hp := hb p (List.mem_cons_self p T)
    have hbT : ∀ z ∈ T, z.1 < W ∧ z.2 < H :=
      fun z hz => hb z (List.mem_cons_of_mem p hz)
    have haT : ∀ z ∈ T, activeAnchor control W z → ∀ q ∈ T, activeAnchor control W q →
        q ∉ anchorCells control W H z :=
      fun z hz hza q hq hqa =>
        ha z (List.mem_cons_of_mem p hz) hza q (List.mem_cons_of_mem p hq) hqa
    rw [List.foldl_cons, List.foldl_cons]
    rw [ih (extendStep control W H img p)
      (by rw [extendStep_width]; exact hiw)
      (by rw [extendStep_height]; exact hih)
      (by rw [extendStep_length]; exact hlen) hbT haT u v hu hv]
    have hbase : getPixel (extendStep control W H img p).data W u v
        = if activeAnchor control W p ∧ (u, v) ∈ anchorCells control W H p
          then somePix (pxData img.data W p.1 p.2) else getPixel img.data W u v :=
      extendStep_getPixel control W H img p hiw hih hlen hp.1 hp.2 u v hu hv
    rw [hbase]
    apply List.foldl_ext
    intro acc z hz
    by_cases hcz : activeAnchor control W z ∧ (u, v) ∈ anchorCells control W H z
    · rw [if_pos hcz, if_pos hcz]
      have hzb := hbT z hz
      have hzpix : getPixel (extendStep control W H img p).data W z.1 z.2
          = getPixel img.data W z.1 z.2 := by
        rw [extendStep_getPixel control W H img p hiw hih hlen hp.1 hp.2 z.1 z.2
          hzb.1 hzb.2]
        rw [if_neg ?_]
        rintro ⟨hap, hzmem⟩
        exact ha p (List.mem_cons_self p T) hap z (List.mem_cons_of_mem p hz) hcz.1
          (by simpa using hzmem)
      show _ = somePix (pxData img.data W z.1 z.2)
      unfold pxData
      rw [hzpix]
    · rw [if_neg hcz, if_neg hcz]

/-- Decomposition of a byte index inside the data block into a pixel
coordinate and a channel offset. -/
theorem byte_decompose (W H n : Nat) (hW : 0 < W) (hn : n < 4 * W * H) :
    ∃ x y k, x < W ∧ y < H ∧ k < 4 ∧ n = pixIdx W x y + k := by
  have h4 : 4 * W * H = 4 * (W * H) := by ring
  have hq : n / 4 < W * H := by omega
  refine ⟨(n / 4) % W, (n / 4) / W, n % 4, Nat.mod_lt _ hW, ?_, by omega, ?_⟩
  · rw [Nat.div_lt_iff_lt_mul hW]
    calc n / 4 < W * H := hq
      _ = H * W := Nat.mul_comm W H
  · unfold pixIdx
    have hmd : (n / 4) % W + (n / 4) / W * W = n / 4 := Nat.mod_add_div' (n / 4) W
    rw [hmd]
    omega

/-- Two data blocks of the same dimensions with equal pixel reads are
equal byte for byte. -/
theorem data_ext (W H : Nat) (d1 d2 : List Nat) (h1 : d1.length = 4 * W * H)
    (h2 : d2.length = 4 * W * H)
    (hpx : ∀ u v, u < W → v < H → getPixel d1 W u v = getPixel d2 W u v) :
    d1 = d2 := by
  apply List.ext_getElem?
  intro n
  by_cases hn : n < 4 * W * H
  · have hW : 0 < W := by
      rcases Nat.eq_zero_or_pos W with hW0 | hW
      · subst hW0; simp at hn
      · exact hW
    obtain ⟨x, y, k, hx, hy, hk, hnn⟩ := byte_decompose W H n hW hn
    have hpix := hpx x y hx hy
    unfold getPixel at hpix
    injection hpix with e0 e1 e2 e3
    subst hnn
    interval_cases k
    · simpa using e0
    · exact e1
    · exact e2
    · exact e3
  · rw [List.getElem?_eq_none (by omega), List.getElem?_eq_none (by omega)]

/-- Two buffers with equal fields are equal. -/
theorem imageData_eq (a b : ImageData) (h1 : a.width = b.width)
    (h2 : a.height = b.height) (h3 : a.data = b.data) : a = b := by
  cases a
  cases b
  simp only [ImageData.mk.injEq]
  exact ⟨h1, h2, h3⟩

/-- Claim C2 (amended): extendSides is idempotent for a fixed control
image PROVIDED no directive overwrite range contains the position of
another non-skipped control read (and the control image fits inside the
source, with well-formed data). Without the proviso a directive can
repaint the anchor of a later directive and a second pass then writes
different colours, as the counterexample shows. -/
theorem extendSides_idempotent_amended (source control : ImageData)
    (hw : control.width ≤ source.width) (hh : control.height ≤ source.height)
    (hlen : source.data.length = 4 * source.width * source.height)
    (hanch : ∀ p ∈ scanCoords control.width control.height,
      activeAnchor control source.width p →
      ∀ q ∈ scanCoords control.width control.height,
        activeAnchor control source.width q →
        q ∉ anchorCells control source.width source.height p) :
    extendSides (extendSides source control) control = extendSides source control := by
  have hbounds : ∀ p ∈ scanCoords control.width control.height,
      p.1 < source.width ∧ p.2 < source.height := by
    intro p hp
    have := (mem_scanCoords control.width control.height p).mp hp
    omega
  have h1w : (extendSides source control).width = source.width :=
    pass_width control source.width source.height _ source
  have h1h : (extendSides source control).height = source.height :=
    pass_height control source.width source.height _ source
  have h1len : (extendSides source control).data.length
      = 4 * source.width * source.height := by
    rw [show (extendSides source control).data.length = source.data.length from
      pass_length control source.width source.height _ source]
    exact hlen
  have hstep2 : extendSides (extendSides source control) control
      = (scanCoords control.width control.height).foldl
          (extendStep control source.width source.height) (extendSides source control) := by
    show (scanCoords control.width control.height).foldl
        (extendStep control (extendSides source control).width
          (extendSides source control).height) (extendSides source control)
      = (scanCoords control.width control.height).foldl
          (extendStep control source.width source.height) (extendSides source control)
    rw [h1w, h1h]
  rw [hstep2]
  have hpres : ∀ p ∈ scanCoords control.width control.height,
      activeAnchor control source.width p →
      getPixel (extendSides source control).data source.width p.1 p.2
        = getPixel source.data source.width p.1 p.2 := by
    intro p hp hpa
    have hb := hbounds p hp
    have hc := pass_getPixel control source.width source.height
      (scanCoords control.width control.height) source rfl rfl hlen hbounds hanch
      p.1 p.2 hb.1 hb.2
    rw [show (scanCoords control.width control.height).foldl
        (extendStep control source.width source.height) source
        = extendSides source control from rfl] at hc
    rw [hc]
    apply foldl_if_none
    intro z hz
    rintro ⟨hza, hmem⟩
    exact hanch z hz hza p hp hpa (by simpa using hmem)
  apply imageData_eq
  · exact pass_width control source.width source.height _ _
  · exact pass_height control source.width source.height _ _
  · apply data_ext source.width source.height
    · rw [pass_length control source.width source.height _ _]
      exact h1len
    · exact h1len
    · intro u v hu hv
      have e1 := pass_getPixel control source.width source.height
        (scanCoords control.width control.height) (extendSides source control)
        h1w h1h h1len hbounds hanch u v hu hv
      have e2 := pass_getPixel control source.width source.height
        (scanCoords control.width control.height) source rfl rfl hlen hbounds hanch
        u v hu hv
      rw [show (scanCoords control.width control.height).foldl
          (extendStep control source.width source.height) source
          = extendSides source control from rfl] at e2
      rw [e1]
      have e3 : (scanCoords control.width control.height).foldl
          (fun acc p => if activeAnchor control source.width p
              ∧ (u, v) ∈ anchorCells control source.width source.height p
            then somePix (pxData (extendSides source control).data source.width p.1 p.2)
            else acc)
          (getPixel (extendSides source control).data source.width u v)
        = (scanCoords control.width control.height).foldl
          (fun acc p => if activeAnchor control source.width p
              ∧ (u, v) ∈ anchorCells control source.width source.height p
            then somePix (pxData source.data source.width p.1 p.2)
            else acc)
          (getPixel (extendSides source control).data source.width u v) := by
        apply List.foldl_ext
        intro acc z hz
        by_cases hcz : activeAnchor control source.width z
            ∧ (u, v) ∈ anchorCells control source.width source.height z
        · rw [if_pos hcz, if_pos hcz]
          unfold pxData
          rw [hpres z hz hcz.1]
        · rw [if_neg hcz, if_neg hcz]
      rw [e3, e2]
      exact fold_overwrite_idem _ _ _ _

/-- Witness for the amended claim C2: a single green (extend up)
directive at (0, 1) whose overwrite range, the pixel (0, 0), contains no
directive; applying extendSides twice equals applying it once. -/
theorem extendSides_idempotent_witness :
    (ctrlGreen.width ≤ srcB.width) ∧ (ctrlGreen.height ≤ srcB.height)
    ∧ srcB.data.length = 4 * srcB.width * srcB.height
    ∧ extendSides (extendSides srcB ctrlGreen) ctrlGreen = extendSides srcB ctrlGreen := by
  refine ⟨by decide, by decide, by decide, ?_⟩
  exact extendSides_idempotent_amended srcB ctrlGreen (by decide) (by decide)
    (by decide) (by decide)

/-- Claim C9 (counterexample): the unconditional skip guarantee fails
when the control image is narrower than the source. The control image
own pixel at (1, 1) of the fully transparent 2-by-2 control has alpha 0,
yet the extendSides iteration at anchor (1, 1) over the 3-by-3 source is
not a skip: the decode reads the control bytes with the source width as
stride, lands past the control buffer, fails the alpha test and applies
a down directive that changes the source. -/
theorem extendStep_alpha_skip_cex :
    (getPixel ctrlTransparent.data ctrlTransparent.width 1 1).a = some 0
    ∧ extendStep ctrlTransparent srcA.width srcA.height srcA (1, 1) ≠ srcA := by
  exact ⟨by decide, by decide⟩

/-- Claim C9 (amended): PROVIDED the control image is as wide as the
source (so the decode really reads the control pixel at the anchor), one
extendSides iteration at an in-bounds anchor is skipped exactly on
alpha 0; otherwise it decodes the direction with first-match priority
(red 255 left, else green 255 up, else blue 255 right, else down),
overwrites exactly the corresponding half-row or half-column with the
source colour at the anchor, and never touches the anchor pixel
itself. -/
theorem extendStep_directive_spec (control img : ImageData) (x y : Nat)
    (hcw : control.width = img.width)
    (hx : x < img.width) (hy : y < img.height)
    (hlen : img.data.length = 4 * img.width * img.height) :
    ((getPixel control.data img.width x y).a = some 0 →
      extendStep control img.width img.height img (x, y) = img)
    ∧ ((getPixel control.data img.width x y).a ≠ some 0 →
      ∀ u v : Nat, u < img.width → v < img.height →
        getPixel (extendStep control img.width img.height img (x, y)).data img.width u v
          = if (u, v) ∈ anchorCells control img.width img.height (x, y)
            then somePix (pxData img.data img.width x y)
            else getPixel img.data img.width u v)
    ∧ (∀ u v : Nat,
        ((u, v) ∈ anchorCells control img.width img.height (x, y) ↔
          (if (getPixel control.data img.width x y).r = some 255 then v = y ∧ u < x
           else if (getPixel control.data img.width x y).g = some 255 then u = x ∧ v < y
           else if (getPixel control.data img.width x y).b = some 255 then
             v = y ∧ x < u ∧ u < img.width
           else u = x ∧ y < v ∧ v < img.height)))
    ∧ (x, y) ∉ anchorCells control img.width img.height (x, y) := by
  refine ⟨?_, ?_, ?_, ?_⟩
  · intro hskip
    unfold extendStep
    rw [if_pos hskip]
  · intro hact u v hu hv
    have hstep := extendStep_getPixel control img.width img.height img (x, y)
      rfl rfl hlen hx hy u v hu hv
    rw [hstep]
    by_cases hmem : (u, v) ∈ anchorCells control img.width img.height (x, y)
    · rw [if_pos (show activeAnchor control img.width (x, y)
          ∧ (u, v) ∈ anchorCells control img.width img.height (x, y) from
            ⟨hact, hmem⟩), if_pos hmem]
    · rw [if_neg (by simp [hmem]), if_neg hmem]
  · intro u v
    exact mem_dirCells_iff img.width img.height x y u v _
  · exact anchor_not_mem_dirCells img.width img.height x y _

/-- Witness for claim C9: the red (extend left) directive at (1, 1) of a
concrete control image; its overwrite range is exactly the pixel (0, 1)
and the anchor is not part of it. -/
theorem extendStep_directive_witness :
    (ctrlRed.width = srcB.width) ∧ (1 < srcB.width) ∧ (1 < srcB.height)
    ∧ ((0, 1) ∈ anchorCells ctrlRed srcB.width srcB.height (1, 1) ↔
        (if (getPixel ctrlRed.data srcB.width 1 1).r = some 255 then 1 = 1 ∧ 0 < 1
         else if (getPixel ctrlRed.data srcB.width 1 1).g = some 255 then 0 = 1 ∧ 1 < 1
         else if (getPixel ctrlRed.data srcB.width 1 1).b = some 255 then
           1 = 1 ∧ 1 < 0 ∧ 0 < srcB.width
         else 0 = 1 ∧ 1 < 1 ∧ 1 < srcB.height))
    ∧ (1, 1) ∉ anchorCells ctrlRed srcB.width srcB.height (1, 1) := by
  have h := extendStep_directive_spec ctrlRed srcB 1 1 (by decide) (by decide)
    (by decide) (by decide)
  exact ⟨by decide, by decide, by decide, h.2.2.1 0 1, h.2.2.2⟩

/-- Witness for claim C10: a concrete 2-by-2 control quadrant with a
center at (0, 0), a target at (1, 0) and no edge marker makes the pass
fail with the undefined-sample runtime error. -/
theorem refillCorner_no_edge_witness :
    findCenter ctrlNoEdge = some (0, 0) ∧ edgeCoords ctrlNoEdge = []
    ∧ targetCoords ctrlNoEdge ≠ []
    ∧ refillCorner srcB ctrlNoEdge false = .error .undefinedSample := by
  refine ⟨by decide, by decide, by decide, ?_⟩
  exact refillCorner_no_edge_runtime_error srcB ctrlNoEdge false (0, 0)
    (by decide) (by decide) (by decide)

end PnP
